import Mathlib

/-!
Shallow embedding of `python_worker/document_parser.py`
(class `DocumentParser`): heuristic extraction of an industry profile
(company name, coordinate, input items, output streams) from plain text.
Strings are modelled as `List Char`; Python regular-expression searches are
translated into explicit leftmost-match scanning functions.
-/

namespace DocumentParser

/-- Python `\s` / `str.strip()` whitespace class (ASCII subset). -/
def pyIsSpace (c : Char) : Bool :=
  c == ' ' || c == '\t' || c == '\n' || c == '\r' || c.toNat == 11 || c.toNat == 12

/-- Python `\w`: alphanumeric or underscore (ASCII subset). -/
def isWordChar (c : Char) : Bool :=
  c.isAlphanum || c == '_'

/-- Python `str.lower()` (ASCII subset). -/
def lowerStr (l : List Char) : List Char :=
  l.map Char.toLower

/-- Python `str.strip()`. -/
def strip (l : List Char) : List Char :=
  ((l.dropWhile pyIsSpace).reverse.dropWhile pyIsSpace).reverse

/-- Python `str.split(sep)` for a one-character separator: keeps empty pieces. -/
def splitOnChar (sep : Char) : List Char → List (List Char)
  | [] => [[]]
  | c :: cs =>
    if c = sep then [] :: splitOnChar sep cs
    else
      match splitOnChar sep cs with
      | [] => [[c]]
      | h :: t => (c :: h) :: t

/-- Embeds `text.split('\n')`, as used throughout the parser. -/
def splitLines (text : List Char) : List (List Char) :=
  splitOnChar '\n' text

/-- Python `needle in hay` substring test. -/
def containsSub (nd : List Char) : List Char → Bool
  | [] => nd.isEmpty
  | c :: cs => nd.isPrefixOf (c :: cs) || containsSub nd cs

/-! ## Name resolver (`_extract_company_name`) -/

/-- The four labels of the pattern `(company|industry|name|organization)[:]\s*(.+)`. -/
def nameLabels : List (List Char) :=
  ["company".data, "industry".data, "name".data, "organization".data]

/-- Embeds `re.match(r'(company|industry|name|organization)[:]\s*(.+)', line, re.IGNORECASE)`
followed by `match.group(2).strip()`: the label must be followed immediately by
the colon (the source pattern has no whitespace between label and `[:]`). -/
def labelMatch (line : List Char) : Option (List Char) :=
  match nameLabels.find? (fun w => w.isPrefixOf (lowerStr line)) with
  | none => none
  | some w =>
    match line.drop w.length with
    | ':' :: r2 =>
      let r3 := r2.dropWhile pyIsSpace
      if r3.isEmpty then (if r2.isEmpty then none else some []) else some (strip r3)
    | _ => none

/-- Python `line[0].isupper()` on a nonempty string. -/
def headIsUpper : List Char → Bool
  | [] => false
  | c :: _ => c.isUpper

/-- The scanning loop of `_extract_company_name` over (at most 10) lines:
skip blank lines; on the first line where the label pattern matches return its
capture; otherwise on the first line longer than 5 characters starting with an
uppercase letter return that line. -/
def scanName : List (List Char) → List Char
  | [] => "Unknown Company".data
  | l :: ls =>
    let s := strip l
    if s.isEmpty then scanName ls
    else
      match labelMatch s with
      | some r => r
      | none => if 5 < s.length && headIsUpper s then s else scanName ls

/-- Embeds `DocumentParser._extract_company_name`. -/
def extractCompanyName (text : List Char) : List Char :=
  scanName ((splitLines text).take 10)

/-! ## Coordinate resolver (`_extract_location`) -/

/-- Parse `\d+\.?\d*` at the head of the input; returns the matched characters
and the remainder. -/
def parseUnsigned (cs : List Char) : Option (List Char × List Char) :=
  let ds := cs.takeWhile Char.isDigit
  if ds.isEmpty then none
  else
    match cs.dropWhile Char.isDigit with
    | '.' :: r2 => some (ds ++ '.' :: r2.takeWhile Char.isDigit, r2.dropWhile Char.isDigit)
    | r1 => some (ds, r1)

/-- Parse `-?\d+\.?\d*` at the head of the input. -/
def parseNumAt (cs : List Char) : Option (List Char × List Char) :=
  match cs with
  | '-' :: rest => (parseUnsigned rest).map (fun p => ('-' :: p.1, p.2))
  | _ => parseUnsigned cs

/-- Try the coordinate pattern `(-?\d+\.?\d*)\s*[,°]\s*(-?\d+\.?\d*)` anchored
at the head of the input; returns the two captured groups. -/
def coordMatchAt (cs : List Char) : Option (List Char × List Char) :=
  match parseNumAt cs with
  | none => none
  | some (c1, r1) =>
    match r1.dropWhile pyIsSpace with
    | [] => none
    | s :: r3 =>
      if s = ',' || s = '°' then
        match parseNumAt (r3.dropWhile pyIsSpace) with
        | some (c2, _) => some (c1, c2)
        | none => none
      else none

/-- Embeds `re.search` of the coordinate pattern: leftmost match over the whole text. -/
def coordSearch : List Char → Option (List Char × List Char)
  | [] => none
  | c :: cs =>
    match coordMatchAt (c :: cs) with
    | some r => some r
    | none => coordSearch cs

/-- Digit run to a natural number. -/
def digitsToNat (ds : List Char) : Nat :=
  ds.foldl (fun a c => 10 * a + (c.toNat - 48)) 0

/-- Python `float()` on an unsigned decimal literal `\d*\.?\d*` (the only
shapes the coordinate captures can take); `none` models a `ValueError`.
Values are exact rationals. -/
def pyFloatBody (cs : List Char) : Option ℚ :=
  let ds := cs.takeWhile Char.isDigit
  match cs.dropWhile Char.isDigit with
  | [] => if ds.isEmpty then none else some (digitsToNat ds : ℚ)
  | '.' :: r2 =>
    let ds2 := r2.takeWhile Char.isDigit
    if !(r2.dropWhile Char.isDigit).isEmpty then none
    else if ds.isEmpty && ds2.isEmpty then none
    else some ((digitsToNat ds : ℚ) + (digitsToNat ds2 : ℚ) / (10 ^ ds2.length))
  | _ => none

/-- Python `float()` with an optional leading minus sign. -/
def pyFloat (cs : List Char) : Option ℚ :=
  match cs with
  | '-' :: rest => (pyFloatBody rest).map Neg.neg
  | _ => pyFloatBody cs

/-- Embeds `DocumentParser._extract_location`: first coordinate-pattern match parsed as
floats, default `{lat: 0.0, lng: 0.0}`; `none` models a `float()` exception
(proved impossible below). -/
def extractLocation (text : List Char) : Option (ℚ × ℚ) :=
  match coordSearch text with
  | some (a, b) =>
    match pyFloat a, pyFloat b with
    | some x, some y => some (x, y)
    | _, _ => none
  | none => some (0, 0)

/-! ## Output-line parsing (`_parse_output_line`) -/

/-- The unit alternation `(tons?|kg|litres?|m3|cubic|gallons?)` of the quantity
pattern, case-insensitive, anchored at the head: returns the matched length. -/
def unitAt (cs : List Char) : Option Nat :=
  let low := lowerStr cs
  if "ton".data.isPrefixOf low then
    some (if (low.drop 3).head? = some 's' then 4 else 3)
  else if "kg".data.isPrefixOf low then some 2
  else if "litre".data.isPrefixOf low then
    some (if (low.drop 5).head? = some 's' then 6 else 5)
  else if "m3".data.isPrefixOf low then some 2
  else if "cubic".data.isPrefixOf low then some 5
  else if "gallon".data.isPrefixOf low then
    some (if (low.drop 6).head? = some 's' then 7 else 6)
  else none

/-- The optional period alternation `(month|year|day)?`, case-insensitive,
anchored at the head: returns the matched length. -/
def periodAt (cs : List Char) : Option Nat :=
  let low := lowerStr cs
  if "month".data.isPrefixOf low then some 5
  else if "year".data.isPrefixOf low then some 4
  else if "day".data.isPrefixOf low then some 3
  else none

/-- The quantity pattern
`(\d+\.?\d*)\s*(tons?|kg|litres?|m3|cubic|gallons?)[/\s]*(month|year|day)?`
anchored at the head; returns `match.group(0)` (the full matched substring,
original characters). -/
def quantityMatchAt (cs : List Char) : Option (List Char) :=
  let ds := cs.takeWhile Char.isDigit
  if ds.isEmpty then none
  else
    let r0 := cs.dropWhile Char.isDigit
    let dp : List Char × List Char :=
      match r0 with
      | '.' :: r => ('.' :: r.takeWhile Char.isDigit, r.dropWhile Char.isDigit)
      | _ => ([], r0)
    let ws := dp.2.takeWhile pyIsSpace
    let r2 := dp.2.dropWhile pyIsSpace
    match unitAt r2 with
    | none => none
    | some ul =>
      let r3 := r2.drop ul
      let sw := r3.takeWhile (fun c => c == '/' || pyIsSpace c)
      let r4 := r3.dropWhile (fun c => c == '/' || pyIsSpace c)
      let pl := (periodAt r4).getD 0
      some (ds ++ dp.1 ++ ws ++ r2.take ul ++ sw ++ r4.take pl)

/-- Embeds `re.search` of the quantity pattern: leftmost match. -/
def quantitySearch : List Char → Option (List Char)
  | [] => none
  | c :: cs =>
    match quantityMatchAt (c :: cs) with
    | some m => some m
    | none => quantitySearch cs

/-- Whole word `w` (lower-case) occurs at the head, with a word boundary after
it (case-insensitive). -/
def wordHereOk (w : List Char) (cs : List Char) : Bool :=
  lowerStr (cs.take w.length) == w &&
    (match cs.drop w.length with
     | [] => true
     | c :: _ => !isWordChar c)

/-- Scan for `\b(w1|w2|...)\b` (case-insensitive), tracking the previous
character for the left word boundary. -/
def containsWordAux (ws : List (List Char)) : Option Char → List Char → Bool
  | _, [] => false
  | prev, c :: cs =>
    ((match prev with
      | none => true
      | some p => !isWordChar p) && ws.any (fun w => wordHereOk w (c :: cs)))
    || containsWordAux ws (some c) cs

/-- Embeds `re.search(r'\b(w1|w2|...)\b', line, re.IGNORECASE)` as a Boolean. -/
def containsWord (ws : List (List Char)) (cs : List Char) : Bool :=
  containsWordAux ws none cs

def liquidWords : List (List Char) := ["liquid".data, "fluid".data, "water".data, "oil".data]

def gasWords : List (List Char) := ["gas".data, "vapor".data, "emission".data, "air".data]

/-- Character class `[a-zA-Z\s]` of the name pattern. -/
def isNameClass (c : Char) : Bool :=
  c.isAlpha || pyIsSpace c

/-- Suffix alternation of the name pattern
`([a-zA-Z\s]+(?:slag|waste|residue|scrap|byproduct|emission|ash|sludge))`. -/
def nameSuffixes : List (List Char) :=
  ["slag".data, "waste".data, "residue".data, "scrap".data,
   "byproduct".data, "emission".data, "ash".data, "sludge".data]

/-- Length of a name-pattern suffix matching at the head (case-insensitive). -/
def suffixLenAt (cs : List Char) : Option Nat :=
  (nameSuffixes.find? (fun w => w == lowerStr (cs.take w.length))).map List.length

/-- Greedy backtracking of `[a-zA-Z\s]+`: try prefix lengths `p, p-1, ..., 1`
until a suffix word matches right after; returns `group(1)` (prefix ++ suffix). -/
def bestPrefix (cs : List Char) : Nat → Option (List Char)
  | 0 => none
  | p + 1 =>
    match suffixLenAt (cs.drop (p + 1)) with
    | some k => some (cs.take (p + 1 + k))
    | none => bestPrefix cs p

/-- The name pattern anchored at the head: maximal class run, then greedy
backtracking for a suffix word. -/
def nameMatchAt (cs : List Char) : Option (List Char) :=
  bestPrefix cs (cs.takeWhile isNameClass).length

/-- Embeds `re.search` of the name pattern: leftmost match. -/
def nameSearch : List Char → Option (List Char)
  | [] => none
  | c :: cs =>
    match nameMatchAt (c :: cs) with
    | some m => some m
    | none => nameSearch cs

/-! ## Item cleaning (`_clean_item`) -/

/-- Character class kept by the substitution in `_clean_item`: word characters,
whitespace, hyphen, slash, parentheses. -/
def keepChar (c : Char) : Bool :=
  isWordChar c || pyIsSpace c || c == '-' || c == '/' || c == '(' || c == ')'

/-- Python `str.split()` (split on whitespace runs, dropping empty pieces),
via an accumulator for the word being read (in reverse). -/
def pyWordsAux : List Char → List Char → List (List Char)
  | [], acc => if acc.isEmpty then [] else [acc.reverse]
  | c :: cs, acc =>
    if pyIsSpace c then
      if acc.isEmpty then pyWordsAux cs [] else acc.reverse :: pyWordsAux cs []
    else pyWordsAux cs (c :: acc)

def pyWords (l : List Char) : List (List Char) :=
  pyWordsAux l []

/-- Python `' '.join(words)`. -/
def joinSpace : List (List Char) → List Char
  | [] => []
  | [w] => w
  | w :: ws => w ++ ' ' :: joinSpace ws

/-- Embeds `DocumentParser._clean_item`: strip characters outside the kept class,
collapse whitespace (`' '.join(item.split())`), lowercase, truncate to 100. -/
def cleanItem (item : List Char) : List Char :=
  (lowerStr (joinSpace (pyWords (item.filter keepChar)))).take 100

/-! ## Output extractor (`_extract_outputs`) -/

inductive PhysState where
  | solid
  | liquid
  | gas
deriving DecidableEq

structure OutputStream where
  name : List Char
  state : PhysState
  quantity : List Char
deriving DecidableEq

/-- Embeds `DocumentParser._parse_output_line`: quantity search, state keywords, name
pattern; a record is produced when the name pattern or the quantity pattern
matched, else nothing. -/
def parseOutputLine (line : List Char) : Option OutputStream :=
  let qm := quantitySearch line
  let st :=
    if containsWord liquidWords line then PhysState.liquid
    else if containsWord gasWords line then PhysState.gas
    else PhysState.solid
  let nm := nameSearch line
  match nm, qm with
  | none, none => none
  | _, _ => some ⟨(nm.map strip).getD (cleanItem line), st, qm.getD "Unknown".data⟩

def outputKeywords : List (List Char) :=
  ["output".data, "product".data, "waste".data, "byproduct".data, "by-product".data,
   "residue".data, "emission".data, "discharge".data, "scrap".data, "slag".data]

/-- The look-ahead loop `for j in range(1, min(5, len(lines) - i))`: parse the
stripped line at `i + j` when it is non-empty. -/
def lookahead (lines : List (List Char)) (i : Nat) : List OutputStream :=
  (List.range' 1 (min 5 (lines.length - i) - 1)).filterMap fun j =>
    let nl := strip (lines.getD (i + j) [])
    if nl.isEmpty then none else parseOutputLine nl

/-- The scan of `_extract_outputs` before deduplication: for every line and
every output keyword contained in it (the keyword loop has no break), parse the
line and then the look-ahead window. -/
def outputCandidates (kws : List (List Char)) (text : List Char) : List OutputStream :=
  let lines := splitLines text
  (List.range lines.length).flatMap fun i =>
    let line := strip (lines.getD i [])
    kws.flatMap fun kw =>
      if containsSub (lowerStr kw) (lowerStr line) then
        (parseOutputLine line).toList ++ lookahead lines i
      else []

/-- Deduplication by `name` with a `seen` set: first occurrence wins. -/
def dedupByName (seen : List (List Char)) : List OutputStream → List OutputStream
  | [] => []
  | o :: os =>
    if o.name ∈ seen then dedupByName seen os
    else o :: dedupByName (o.name :: seen) os

/-- Embeds `DocumentParser._extract_outputs`. -/
def extractOutputs (kws : List (List Char)) (text : List Char) : List OutputStream :=
  (dedupByName [] (outputCandidates kws text)).take 10

/-! ## List-item extraction (`_extract_list_items`) and input extractor -/

/-- Bullet glyphs of the pattern `^[\-\*•●◦▪▫]\s*(.+)`. -/
def bulletChars : List Char := ['-', '*', '•', '●', '◦', '▪', '▫']

/-- Bullet-list pattern anchored at the head, returning `group(1).strip()`. -/
def bulletMatch (s : List Char) : Option (List Char) :=
  match s with
  | [] => none
  | c :: rest =>
    if bulletChars.contains c && !rest.isEmpty then
      some (strip (rest.dropWhile pyIsSpace))
    else none

/-- Numbered-list pattern `^\d+[\.)]\s*(.+)` anchored at the head, returning
`group(1).strip()`. -/
def numberedMatch (s : List Char) : Option (List Char) :=
  let ds := s.takeWhile Char.isDigit
  if ds.isEmpty then none
  else
    match s.dropWhile Char.isDigit with
    | [] => none
    | c :: rest =>
      if (c = '.' || c = ')') && !rest.isEmpty then
        some (strip (rest.dropWhile pyIsSpace))
      else none

/-- Embeds `DocumentParser._extract_list_items`: bullet items, numbered items, or
comma-separated pieces from each non-blank line of the window. -/
def extractListItems (lines : List (List Char)) : List (List Char) :=
  lines.flatMap fun l =>
    let s := strip l
    if s.isEmpty then []
    else
      match bulletMatch s with
      | some r => [r]
      | none =>
        match numberedMatch s with
        | some r => [r]
        | none =>
          if s.contains ',' && (splitOnChar ',' s).length > 1 then
            (splitOnChar ',' s).map strip
          else []

def inputKeywords : List (List Char) :=
  ["raw material".data, "input".data, "resource".data, "feed".data, "consume".data,
   "material".data, "ingredient".data, "supply".data, "purchase".data]

def boundaryWords : List (List Char) :=
  ["waste".data, "output".data, "process".data]

/-- Embeds `keyword.lower() in line.lower()` over a keyword list. -/
def kwTrigger (kws : List (List Char)) (line : List Char) : Bool :=
  kws.any fun kw => containsSub (lowerStr kw) (lowerStr line)

/-- Embeds `kw in line.lower()` over a keyword list (keywords used verbatim). -/
def kwIn (kws : List (List Char)) (line : List Char) : Bool :=
  kws.any fun kw => containsSub kw (lowerStr line)

/-- The scanning loop of `_extract_items`: on a keyword line harvest
`lines[i:min(i+10, len(lines))]`; after any trigger, a line containing a
boundary word but no keyword breaks the loop (after that line's own harvest). -/
def itemsLoop (kws : List (List Char)) : List (List Char) → Bool → List (List Char)
  | [], _ => []
  | l :: rest, inSection =>
    let line := strip l
    let trig := kwTrigger kws line
    let here := if trig then extractListItems ((l :: rest).take 10) else []
    let inSec := inSection || trig
    if inSec && kwIn boundaryWords line && !kwIn kws line then here
    else here ++ itemsLoop kws rest inSec

/-- First-occurrence deduplication with a `seen` set. -/
def dedupKeepFirst (seen : List (List Char)) : List (List Char) → List (List Char)
  | [] => []
  | x :: xs =>
    if x ∈ seen then dedupKeepFirst seen xs
    else x :: dedupKeepFirst (x :: seen) xs

/-- Models Python `list(set(...))`. CPython's set iteration order is
unspecified; this embedding fixes first-occurrence order, and all theorems
about the deduplicated list use only order-insensitive facts (membership,
length, distinctness). -/
def pySetList (l : List (List Char)) : List (List Char) :=
  dedupKeepFirst [] l

/-- Embeds `DocumentParser._extract_items`. -/
def extractItems (text : List Char) (kws : List (List Char)) : List (List Char) :=
  let items := itemsLoop kws (splitLines text) false
  (pySetList ((items.filter (fun i => !i.isEmpty)).map cleanItem)).take 10

/-! ## Profile assembly (`_extract_profile`) and dispatch (`parse`) -/

structure ProfileData where
  name : List Char
  location : ℚ × ℚ
  inputs : List (List Char)
  outputs : List OutputStream
deriving DecidableEq

/-- Embeds `DocumentParser._extract_profile`; `none` models an uncaught exception
(only `float()` could raise, which is proved impossible below). -/
def extractProfile (text : List Char) : Option ProfileData :=
  (extractLocation text).map fun loc =>
    ⟨extractCompanyName text, loc, extractItems text inputKeywords,
     extractOutputs outputKeywords text⟩

inductive DocFormat where
  | pdf
  | docx
  | txt
deriving DecidableEq

/-- The extension dispatch of `parse`: `os.path.splitext(...)[1].lower()`
compared against the three supported extensions. -/
def dispatch (ext : List Char) : Option DocFormat :=
  if lowerStr ext = ".pdf".data then some DocFormat.pdf
  else if lowerStr ext = ".docx".data then some DocFormat.docx
  else if lowerStr ext = ".txt".data then some DocFormat.txt
  else none

/-- Embeds `DocumentParser.parse`, with the format-specific text extraction modelled
as the supplied `text` (the extractors are I/O against the file). An
unsupported extension raises `ValueError(f"Unsupported file type: {ext}")`. -/
def parse (ext : List Char) (text : List Char) : Except (List Char) ProfileData :=
  match dispatch ext with
  | none => Except.error ("Unsupported file type: ".data ++ lowerStr ext)
  | some _ =>
    match extractProfile text with
    | some p => Except.ok p
    | none => Except.error "float conversion failed".data

/-! ## The parser object

`DocumentParser.__init__` stores the two keyword lists on `self`; no method
ever assigns to `self` afterwards, so each resolver returns the state
unchanged. -/

structure ParserState where
  input_keywords : List (List Char)
  output_keywords : List (List Char)
deriving DecidableEq

def initParser : ParserState :=
  ⟨inputKeywords, outputKeywords⟩

/-- Embeds `self._extract_company_name(text)` as a state-passing method. -/
def nameM (p : ParserState) (text : List Char) : List Char × ParserState :=
  (extractCompanyName text, p)

/-- Embeds `self._extract_location(text)` as a state-passing method. -/
def locationM (p : ParserState) (text : List Char) : Option (ℚ × ℚ) × ParserState :=
  (extractLocation text, p)

/-- Embeds `self._extract_items(text, self.input_keywords)` as a state-passing method. -/
def itemsM (p : ParserState) (text : List Char) : List (List Char) × ParserState :=
  (extractItems text p.input_keywords, p)

/-- Embeds `self._extract_outputs(text)` (reading `self.output_keywords`) as a
state-passing method. -/
def outputsM (p : ParserState) (text : List Char) : List OutputStream × ParserState :=
  (extractOutputs p.output_keywords text, p)

/-! ## Specification-side definitions

These definitions follow the words of spec sentences (or of amended claims)
and are compared against the source-derived definitions above. -/

/-- Follows claim C3's stated pattern
`(company|industry|name|organization), optional whitespace, colon, optional
whitespace, capture`: unlike the source pattern, whitespace is permitted
between the label and the colon. Returns the captured remainder trimmed. -/
def claimLabelMatch (line : List Char) : Option (List Char) :=
  match nameLabels.find? (fun w => w.isPrefixOf (lowerStr line)) with
  | none => none
  | some w =>
    match (line.drop w.length).dropWhile pyIsSpace with
    | ':' :: r2 =>
      let r3 := r2.dropWhile pyIsSpace
      if r3.isEmpty then none else some (strip r3)
    | _ => none

/-- A line fires the name resolver: either the label pattern matches or the
capitalized-line fallback applies. -/
def nameRuleFires (s : List Char) : Bool :=
  (labelMatch s).isSome || (5 < s.length && headIsUpper s)

/-- Amended C3, stated declaratively: among the first 10 lines, stripped and
with blank lines skipped, find the first line where either rule fires; return
the label capture when the label pattern matched, the line itself otherwise,
and the sentinel when no line fires. -/
def nameResolverSpec (text : List Char) : List Char :=
  match ((((splitLines text).take 10).map strip).filter
      (fun s => !s.isEmpty)).find? nameRuleFires with
  | some s =>
    match labelMatch s with
    | some r => r
    | none => s
  | none => "Unknown Company".data

/-- Amended C6 character class, from the amended words: alphanumeric,
underscore, whitespace, hyphen, slash, or parenthesis. -/
def keepCharSpec (c : Char) : Bool :=
  c.isAlphanum || c == '_' || pyIsSpace c || c == '-' || c == '/' || c == '(' || c == ')'

/-- Amended C6 whitespace collapsing, as a single left-to-right pass:
`started` records whether a non-whitespace character has been emitted,
`pending` whether whitespace has been seen since; each internal whitespace run
becomes one space, leading and trailing whitespace disappears. -/
def collapseGo (started pending : Bool) : List Char → List Char
  | [] => []
  | c :: cs =>
    if pyIsSpace c then collapseGo started true cs
    else if started && pending then ' ' :: c :: collapseGo true false cs
    else c :: collapseGo true false cs

/-- Amended C6, as a pipeline: filter by the stated character class, collapse
whitespace runs to single spaces (dropping leading and trailing whitespace),
lowercase, truncate to 100 characters. -/
def cleanItemSpec (item : List Char) : List Char :=
  (lowerStr (collapseGo false false (item.filter keepCharSpec))).take 100

/-- Amended C7 look-ahead, stated as a slice: the 4 lines immediately
following line `i` (blank lines count against the window), each parsed when
its stripped content is non-empty. -/
def lookaheadSliceSpec (lines : List (List Char)) (i : Nat) : List OutputStream :=
  ((lines.drop (i + 1)).take 4).filterMap fun l =>
    let nl := strip l
    if nl.isEmpty then none else parseOutputLine nl

/-- Amended C7 scan: every line containing an output keyword is parsed (once
per matching keyword), together with its positional 4-line look-ahead window. -/
def outputScanSpec (kws : List (List Char)) (text : List Char) : List OutputStream :=
  let lines := splitLines text
  (List.range lines.length).flatMap fun i =>
    let line := strip (lines.getD i [])
    kws.flatMap fun kw =>
      if containsSub (lowerStr kw) (lowerStr line) then
        (parseOutputLine line).toList ++ lookaheadSliceSpec lines i
      else []

/-! ## Helper lemmas -/

theorem takeWhile_append_of_all {α} {p : α → Bool} {l : List α} (r : List α)
    (h : ∀ a ∈ l, p a = true) : (l ++ r).takeWhile p = l ++ r.takeWhile p := by
  induction l with
  | nil => simp
  | cons a l ih =>
    simp only [List.cons_append, List.takeWhile_cons, h a (List.mem_cons_self a l)]
    exact congrArg (a :: ·) (ih fun b hb => h b (List.mem_cons_of_mem a hb))

theorem dropWhile_append_of_all {α} {p : α → Bool} {l : List α} (r : List α)
    (h : ∀ a ∈ l, p a = true) : (l ++ r).dropWhile p = r.dropWhile p := by
  induction l with
  | nil => simp
  | cons a l ih =>
    simp only [List.cons_append, List.dropWhile_cons, h a (List.mem_cons_self a l)]
    exact ih fun b hb => h b (List.mem_cons_of_mem a hb)

theorem mem_takeWhile_digit {cs : List Char} :
    ∀ a ∈ cs.takeWhile Char.isDigit, Char.isDigit a = true := fun _ ha =>
  List.mem_takeWhile_imp ha

/-- Parsing `pyFloatBody` succeeds on every string of the shape `digits ++ "." ++ digits`
with a nonempty integer part. -/
theorem pyFloatBody_digits_dot {ds ds2 : List Char}
    (hne : ¬ds.isEmpty = true)
    (h1 : ∀ a ∈ ds, Char.isDigit a = true) (h2 : ∀ a ∈ ds2, Char.isDigit a = true) :
    (pyFloatBody (ds ++ '.' :: ds2)).isSome = true := by
  have htake : (ds ++ '.' :: ds2).takeWhile Char.isDigit = ds ++ [] := by
    rw [takeWhile_append_of_all _ h1]
    simp [List.takeWhile_cons]
  have hdrop : (ds ++ '.' :: ds2).dropWhile Char.isDigit = '.' :: ds2 := by
    rw [dropWhile_append_of_all _ h1]
    simp [List.dropWhile_cons]
  have htake2 : ds2.takeWhile Char.isDigit = ds2 ++ [] := by
    simpa using @takeWhile_append_of_all Char _ ds2 [] (by simpa using h2)
  have hdrop2 : ds2.dropWhile Char.isDigit = [] := by
    simpa using @dropWhile_append_of_all Char _ ds2 [] (by simpa using h2)
  simp [pyFloatBody, htake, hdrop, hdrop2, hne]

/-- Parsing `pyFloatBody` succeeds on every nonempty all-digit string. -/
theorem pyFloatBody_digits {ds : List Char}
    (hne : ¬ds.isEmpty = true) (h1 : ∀ a ∈ ds, Char.isDigit a = true) :
    (pyFloatBody ds).isSome = true := by
  have htake : ds.takeWhile Char.isDigit = ds ++ [] := by
    simpa using @takeWhile_append_of_all Char _ ds [] (by simpa using h1)
  have hdrop : ds.dropWhile Char.isDigit = [] := by
    simpa using @dropWhile_append_of_all Char _ ds [] (by simpa using h1)
  simp [pyFloatBody, htake, hdrop, hne]

/-- Every capture of `parseUnsigned` is accepted by `pyFloatBody`. -/
theorem parseUnsigned_float {cs out r : List Char}
    (h : parseUnsigned cs = some (out, r)) : (pyFloatBody out).isSome = true := by
  by_cases hds : (cs.takeWhile Char.isDigit).isEmpty = true
  · simp [parseUnsigned, hds] at h
  · rcases hsp : cs.dropWhile Char.isDigit with _ | ⟨c, r2⟩
    · simp [parseUnsigned, hds, hsp] at h
      rw [← h.1]
      exact pyFloatBody_digits (by simpa using hds) mem_takeWhile_digit
    · by_cases hc : c = '.'
      · subst hc
        simp [parseUnsigned, hds, hsp] at h
        rw [← h.1]
        exact pyFloatBody_digits_dot (by simpa using hds) mem_takeWhile_digit mem_takeWhile_digit
      · simp only [parseUnsigned, hds, hsp, Bool.false_eq_true, if_false] at h
        split at h
        · rename_i heq
          exact absurd (List.cons.injEq _ _ _ _ ▸ heq).1 hc
        · obtain ⟨h1, h2⟩ := Prod.mk.inj (Option.some.inj h)
          rw [← h1]
          exact pyFloatBody_digits (by simpa using hds) mem_takeWhile_digit

/-- A string accepted by `pyFloatBody` cannot start with `'-'`, so `pyFloat`
accepts it as well. -/
theorem pyFloat_isSome_of_body {out : List Char}
    (hb : (pyFloatBody out).isSome = true) : (pyFloat out).isSome = true := by
  unfold pyFloat
  split
  · rename_i rest
    rw [show pyFloatBody ('-' :: rest) = none from rfl] at hb
    simp at hb
  · exact hb

/-- Every capture of `parseNumAt` is accepted by `pyFloat`. -/
theorem parseNumAt_float {cs out r : List Char}
    (h : parseNumAt cs = some (out, r)) : (pyFloat out).isSome = true := by
  unfold parseNumAt at h
  split at h
  · rename_i rest
    rcases hu : parseUnsigned rest with _ | ⟨o2, r2⟩ <;> rw [hu] at h
    · simp at h
    · simp only [Option.map_some'] at h
      obtain ⟨h1, _⟩ := Prod.mk.inj (Option.some.inj h)
      rw [← h1]
      show (pyFloat ('-' :: o2)).isSome = true
      unfold pyFloat
      simp only [Option.isSome_map']
      exact parseUnsigned_float hu
  · exact pyFloat_isSome_of_body (parseUnsigned_float h)

/-- Both captures of the coordinate pattern are accepted by `pyFloat`. -/
theorem coordMatchAt_float {cs a b : List Char}
    (h : coordMatchAt cs = some (a, b)) :
    (pyFloat a).isSome = true ∧ (pyFloat b).isSome = true := by
  unfold coordMatchAt at h
  split at h
  · exact absurd h (by simp)
  · rename_i c1 r1 h1
    split at h
    · exact absurd h (by simp)
    · rename_i s r3 _
      split at h
      · split at h
        · rename_i c2 r2 h2
          obtain ⟨ha, hb⟩ := Prod.mk.inj (Option.some.inj h)
          exact ⟨ha ▸ parseNumAt_float h1, hb ▸ parseNumAt_float h2⟩
        · exact absurd h (by simp)
      · exact absurd h (by simp)

/-- Both captures of `coordSearch` (leftmost match anywhere in the text) are
accepted by `pyFloat`. -/
theorem coordSearch_float {text a b : List Char}
    (h : coordSearch text = some (a, b)) :
    (pyFloat a).isSome = true ∧ (pyFloat b).isSome = true := by
  induction text with
  | nil => exact absurd h (by simp [coordSearch])
  | cons c cs ih =>
    unfold coordSearch at h
    split at h
    · rename_i p hp
      cases Option.some.inj h
      exact coordMatchAt_float hp
    · exact ih h

/-- Function `_extract_location` never raises: the `float()` calls always succeed. -/
theorem extractLocation_isSome (text : List Char) :
    (extractLocation text).isSome = true := by
  unfold extractLocation
  split
  · rename_i a b hab
    obtain ⟨ha, hb⟩ := coordSearch_float hab
    rcases hxa : pyFloat a with _ | xa
    · rw [hxa] at ha; simp at ha
    · rcases hxb : pyFloat b with _ | xb
      · rw [hxb] at hb; simp at hb
      · simp [hxa, hxb]
  · simp

/-! ## Claims -/

/-- C1: for every supported file type, parsing a document whose text
extraction yields the empty string returns a profile with name
"Unknown Company", location (0, 0), empty inputs and empty outputs, and never
an error. -/
theorem claim_C1_empty_document (ext : List Char)
    (h : (dispatch ext).isSome = true) :
    parse ext "".data =
      Except.ok ⟨"Unknown Company".data, ((0 : ℚ), (0 : ℚ)), [], []⟩ := by
  rcases hd : dispatch ext with _ | f
  · rw [hd] at h
    simp at h
  · unfold parse
    rw [hd]
    rfl

theorem claim_C1_empty_document_witness :
    parse ".pdf".data "".data =
      Except.ok ⟨"Unknown Company".data, ((0 : ℚ), (0 : ℚ)), [], []⟩ :=
  claim_C1_empty_document ".pdf".data (by rfl)

/-- C2: an extension whose lowercasing is none of ".pdf", ".docx", ".txt" is
rejected with an error whose message names the (lowercased) extension, and no
profile is returned; each of the three supported extensions selects its
format-specific extractor branch. -/
theorem claim_C2_unsupported_extension (ext text : List Char) :
    (dispatch ext = none ↔
      lowerStr ext ≠ ".pdf".data ∧ lowerStr ext ≠ ".docx".data ∧
        lowerStr ext ≠ ".txt".data) ∧
    (dispatch ext = none →
      parse ext text = Except.error ("Unsupported file type: ".data ++ lowerStr ext)) ∧
    (lowerStr ext = ".pdf".data → dispatch ext = some DocFormat.pdf) ∧
    (lowerStr ext = ".docx".data → dispatch ext = some DocFormat.docx) ∧
    (lowerStr ext = ".txt".data → dispatch ext = some DocFormat.txt) := by
  refine ⟨?_, ?_, ?_, ?_, ?_⟩
  · unfold dispatch
    split_ifs with h1 h2 h3 <;> simp_all
  · intro hd
    unfold parse
    rw [hd]
  · intro h
    unfold dispatch
    rw [if_pos h]
  · intro h
    unfold dispatch
    rw [h, if_neg (by decide), if_pos rfl]
  · intro h
    unfold dispatch
    rw [h, if_neg (by decide), if_neg (by decide), if_pos rfl]

theorem claim_C2_unsupported_extension_witness :
    parse ".EXE".data "hello".data =
      Except.error ("Unsupported file type: ".data ++ lowerStr ".EXE".data) ∧
    dispatch ".PDF".data = some DocFormat.pdf :=
  ⟨(claim_C2_unsupported_extension ".EXE".data "hello".data).2.1
      ((claim_C2_unsupported_extension ".EXE".data "hello".data).1.mpr (by decide)),
   (claim_C2_unsupported_extension ".PDF".data []).2.2.1 (by decide)⟩

/-- C4: for every text, the inputs and outputs of the returned profile each
have length at most 10, regardless of how many candidates were harvested. -/
theorem claim_C4_caps (text : List Char) (p : ProfileData)
    (h : extractProfile text = some p) :
    p.inputs.length ≤ 10 ∧ p.outputs.length ≤ 10 := by
  rcases hl : extractLocation text with _ | loc
  · rw [extractProfile, hl] at h
    simp at h
  · rw [extractProfile, hl] at h
    simp only [Option.map_some'] at h
    cases Option.some.inj h
    constructor
    · simp [extractItems]
    · simp [extractOutputs]

theorem claim_C4_caps_witness :
    (⟨"Unknown Company".data, ((0 : ℚ), (0 : ℚ)), [], []⟩ : ProfileData).inputs.length ≤ 10 ∧
    (⟨"Unknown Company".data, ((0 : ℚ), (0 : ℚ)), [], []⟩ : ProfileData).outputs.length ≤ 10 :=
  claim_C4_caps "".data _ (by rfl)

/-- C8: the four resolvers are stateless and idempotent: run twice from the
freshly constructed parser state on the same text, each returns the same
result and leaves the keyword-list state unchanged. -/
theorem claim_C8_resolvers_stateless (text : List Char) :
    ((nameM initParser text).1 = (nameM (nameM initParser text).2 text).1 ∧
      (nameM initParser text).2 = initParser) ∧
    ((locationM initParser text).1 = (locationM (locationM initParser text).2 text).1 ∧
      (locationM initParser text).2 = initParser) ∧
    ((itemsM initParser text).1 = (itemsM (itemsM initParser text).2 text).1 ∧
      (itemsM initParser text).2 = initParser) ∧
    ((outputsM initParser text).1 = (outputsM (outputsM initParser text).2 text).1 ∧
      (outputsM initParser text).2 = initParser) :=
  ⟨⟨rfl, rfl⟩, ⟨rfl, rfl⟩, ⟨rfl, rfl⟩, ⟨rfl, rfl⟩⟩

/-- C9: profile extraction is total. Both coordinate captures are always valid
float literals (so `float()` cannot fail), and the profile record with its
four fields is always returned. -/
theorem claim_C9_profile_total (text : List Char) :
    (∀ a b : List Char, coordSearch text = some (a, b) →
      (pyFloat a).isSome = true ∧ (pyFloat b).isSome = true) ∧
    ∃ loc : ℚ × ℚ, extractProfile text =
      some ⟨extractCompanyName text, loc, extractItems text inputKeywords,
            extractOutputs outputKeywords text⟩ := by
  refine ⟨fun a b h => coordSearch_float h, ?_⟩
  rcases hl : extractLocation text with _ | loc
  · have hs := extractLocation_isSome text
    rw [hl] at hs
    simp at hs
  · exact ⟨loc, by rw [extractProfile, hl]; rfl⟩

theorem claim_C9_profile_total_witness :
    (pyFloat "12.34".data).isSome = true ∧ (pyFloat "56.78".data).isSome = true :=
  (claim_C9_profile_total "Location: 12.34, 56.78".data).1 "12.34".data "56.78".data (by rfl)

/-- The scanning loop of `_extract_company_name` equals the declarative
description: strip the lines, skip blanks, find the first line where a rule
fires, and dispatch on the label pattern there. -/
theorem scanName_eq_spec (ls : List (List Char)) :
    scanName ls =
      match ((ls.map strip).filter (fun s => !s.isEmpty)).find? nameRuleFires with
      | some s =>
        match labelMatch s with
        | some r => r
        | none => s
      | none => "Unknown Company".data := by
  induction ls with
  | nil => rfl
  | cons l t ih =>
    by_cases he : (strip l).isEmpty = true
    · have hfil : (((l :: t).map strip).filter (fun s => !s.isEmpty)) =
          ((t.map strip).filter (fun s => !s.isEmpty)) := by
        simp [List.filter_cons, he]
      rw [hfil, scanName, if_pos he]
      exact ih
    · have hfil : (((l :: t).map strip).filter (fun s => !s.isEmpty)) =
          strip l :: ((t.map strip).filter (fun s => !s.isEmpty)) := by
        simp [List.filter_cons, he]
      rw [hfil, scanName, if_neg he]
      rcases hl : labelMatch (strip l) with _ | r
      · by_cases hu : (5 < (strip l).length && headIsUpper (strip l)) = true
        · have hf : nameRuleFires (strip l) = true := by
            simp [nameRuleFires, hl, hu]
          rw [List.find?_cons_of_pos _ hf, hu, if_pos rfl]
          simp [hl]
        · have hf : ¬nameRuleFires (strip l) = true := by
            simp only [nameRuleFires, hl, Option.isSome_none, Bool.false_or]
            exact hu
          rw [List.find?_cons_of_neg _ hf]
          rw [eq_comm] at ih
          rw [ih]
          simp only [Bool.not_eq_true] at hu
          rw [hu]
          simp
      · have hf : nameRuleFires (strip l) = true := by
          simp [nameRuleFires, hl]
        rw [List.find?_cons_of_pos _ hf]
        simp [hl]

/-- C3 counterexample: on the line "Company : Acme Corp" the claim's pattern
(whitespace allowed before the colon) captures "Acme Corp", but the code's
pattern does not match, and the resolver returns the whole line via the
capitalized-line fallback. -/
theorem claim_C3_counterexample :
    claimLabelMatch (strip "Company : Acme Corp".data) = some "Acme Corp".data ∧
    extractCompanyName "Company : Acme Corp".data = "Company : Acme Corp".data ∧
    "Company : Acme Corp".data ≠ "Acme Corp".data :=
  ⟨by rfl, by rfl, by decide⟩

/-- C3 amended: the name resolver inspects only the first 10 lines (blank
lines skipped); the label must be followed immediately by the colon (no
whitespace before it); the first non-blank line where the label pattern or the
capitalized-line fallback fires settles the result, the label capture (trimmed)
when the pattern matched. -/
theorem claim_C3_amended (text : List Char) :
    extractCompanyName text = nameResolverSpec text := by
  unfold extractCompanyName nameResolverSpec
  exact scanName_eq_spec _

/-- Every record surviving deduplication has a name outside the `seen` set. -/
theorem dedupByName_not_seen {l : List OutputStream} {seen : List (List Char)}
    {o : OutputStream} (h : o ∈ dedupByName seen l) : o.name ∉ seen := by
  induction l generalizing seen with
  | nil => simp [dedupByName] at h
  | cons c cs ih =>
    rw [dedupByName] at h
    split at h
    · exact ih h
    · rename_i hns
      rcases List.mem_cons.mp h with rfl | hm
      · exact hns
      · exact fun hs => ih hm (List.mem_cons_of_mem _ hs)

/-- Every record surviving deduplication is the first record in the candidate
list bearing its name. -/
theorem dedupByName_find {l : List OutputStream} {seen : List (List Char)}
    {o : OutputStream} (h : o ∈ dedupByName seen l) :
    l.find? (fun c => c.name == o.name) = some o := by
  induction l generalizing seen with
  | nil => simp [dedupByName] at h
  | cons c cs ih =>
    rw [dedupByName] at h
    split at h
    · rename_i hseen
      have hno := dedupByName_not_seen h
      have hne : ¬(c.name == o.name) = true := by
        simp only [beq_iff_eq]
        intro hE
        exact hno (hE ▸ hseen)
      rw [List.find?_cons_of_neg cs hne]
      exact ih h
    · rename_i hseen
      rcases List.mem_cons.mp h with rfl | hm
      · rw [List.find?_cons_of_pos cs (by simp)]
      · have hno := dedupByName_not_seen hm
        have hne : ¬(c.name == o.name) = true := by
          simp only [beq_iff_eq]
          intro hE
          exact hno (hE ▸ List.mem_cons_self _ _)
        rw [List.find?_cons_of_neg cs hne]
        exact ih hm

/-- The names of the deduplicated list are pairwise distinct. -/
theorem dedupByName_nodup (l : List OutputStream) (seen : List (List Char)) :
    ((dedupByName seen l).map OutputStream.name).Nodup := by
  induction l generalizing seen with
  | nil => simp [dedupByName]
  | cons c cs ih =>
    rw [dedupByName]
    split
    · exact ih seen
    · simp only [List.map_cons, List.nodup_cons]
      refine ⟨?_, ih (c.name :: seen)⟩
      intro hmem
      obtain ⟨o, ho, hname⟩ := List.mem_map.mp hmem
      exact dedupByName_not_seen ho (hname ▸ List.mem_cons_self _ _)

/-- C5: output deduplication is by name with the first occurrence winning: the
names of the returned outputs are pairwise distinct, and every returned record
is the first record in the candidate scan bearing its name (so a later record
with the same name and a different quantity never appears). -/
theorem claim_C5_output_dedup (text : List Char) :
    ((extractOutputs outputKeywords text).map OutputStream.name).Nodup ∧
    ∀ o ∈ extractOutputs outputKeywords text,
      (outputCandidates outputKeywords text).find? (fun c => c.name == o.name) = some o := by
  constructor
  · have hsub : ((extractOutputs outputKeywords text).map OutputStream.name).Sublist
        ((dedupByName [] (outputCandidates outputKeywords text)).map OutputStream.name) :=
      (List.take_sublist 10 _).map _
    exact List.Nodup.sublist hsub (dedupByName_nodup _ _)
  · intro o ho
    exact dedupByName_find (List.take_subset 10 _ ho)

theorem claim_C5_output_dedup_witness :
    (outputCandidates outputKeywords "iron waste 5 kg\niron waste 7 kg".data).find?
        (fun c => c.name == "iron waste".data) =
      some ⟨"iron waste".data, PhysState.solid, "5 kg".data⟩ :=
  (claim_C5_output_dedup "iron waste 5 kg\niron waste 7 kg".data).2
    ⟨"iron waste".data, PhysState.solid, "5 kg".data⟩ (by decide)

/-- Splitting with a nonempty accumulator always yields at least one word. -/
theorem pyWordsAux_ne_nil (cs : List Char) :
    ∀ (a : Char) (acc : List Char), pyWordsAux cs (a :: acc) ≠ [] := by
  induction cs with
  | nil =>
    intro a acc
    simp [pyWordsAux]
  | cons c cs ih =>
    intro a acc
    rw [pyWordsAux]
    split
    · simp
    · exact ih c (a :: acc)

theorem joinSpace_cons (w : List Char) (ws : List (List Char)) :
    joinSpace (w :: ws) = w ++ (if ws.isEmpty then [] else ' ' :: joinSpace ws) := by
  cases ws with
  | nil => simp [joinSpace]
  | cons v vs => rfl

/-- The word-splitting accumulator run against the single-pass whitespace
collapser, in all three machine states. -/
theorem collapse_triple (l : List Char) :
    (∀ b, collapseGo false b l = joinSpace (pyWordsAux l [])) ∧
    (∀ (a : Char) (acc : List Char),
      joinSpace (pyWordsAux l (a :: acc)) = (a :: acc).reverse ++ collapseGo true false l) ∧
    (collapseGo true true l =
      if (pyWordsAux l []).isEmpty then [] else ' ' :: joinSpace (pyWordsAux l [])) := by
  induction l with
  | nil =>
    refine ⟨fun b => rfl, fun a acc => by simp [pyWordsAux, joinSpace, collapseGo], rfl⟩
  | cons c cs ih =>
    obtain ⟨ihA, ihD, ihE⟩ := ih
    by_cases hc : pyIsSpace c = true
    · refine ⟨fun b => ?_, fun a acc => ?_, ?_⟩
      · rw [collapseGo, if_pos hc, ihA true, pyWordsAux, if_pos hc]
        rfl
      · rw [pyWordsAux, if_pos hc]
        show joinSpace ((a :: acc).reverse :: pyWordsAux cs []) = _
        rw [joinSpace_cons, collapseGo, if_pos hc, ihE]
      · rw [collapseGo, if_pos hc, ihE, pyWordsAux, if_pos hc]
        rfl
    · refine ⟨fun b => ?_, fun a acc => ?_, ?_⟩
      · rw [collapseGo, if_neg hc]
        show c :: collapseGo true false cs = _
        rw [pyWordsAux, if_neg hc, ihD c []]
        rfl
      · rw [pyWordsAux, if_neg hc, ihD c (a :: acc), collapseGo, if_neg hc]
        show (c :: a :: acc).reverse ++ collapseGo true false cs =
          (a :: acc).reverse ++ c :: collapseGo true false cs
        simp [List.reverse_cons, List.append_assoc]
      · rw [collapseGo, if_neg hc]
        show ' ' :: c :: collapseGo true false cs = _
        rw [pyWordsAux, if_neg hc]
        have hne : ¬((pyWordsAux cs [c]).isEmpty = true) := fun hE =>
          pyWordsAux_ne_nil cs c [] (List.isEmpty_iff.mp hE)
        rw [if_neg hne, ihD c []]
        rfl

/-- Joining `' '.join(s.split())` is the one-pass whitespace collapser. -/
theorem joinWords_eq_collapse (l : List Char) :
    joinSpace (pyWords l) = collapseGo false false l :=
  ((collapse_triple l).1 false).symm

theorem keepChar_eq_spec : keepChar = keepCharSpec := by
  funext c
  simp [keepChar, keepCharSpec, isWordChar, Bool.or_assoc]

/-- C6 counterexample: the code keeps underscores (Python `\w` includes the
underscore), whereas the claim says an underscore is removed. -/
theorem claim_C6_counterexample :
    cleanItem "a_b".data = "a_b".data ∧ '_' ∈ cleanItem "a_b".data ∧
    cleanItem "a_b".data ≠ "ab".data :=
  ⟨by rfl, by decide, by decide⟩

/-- C6 amended: the cleaning helper removes every character that is not a word
character (alphanumeric or underscore — underscores are kept), whitespace,
hyphen, slash, or parenthesis; collapses every whitespace run to a single
space, dropping leading and trailing whitespace; lowercases; truncates to 100
characters. -/
theorem claim_C6_amended (item : List Char) :
    cleanItem item = cleanItemSpec item := by
  rw [cleanItem, cleanItemSpec, ← keepChar_eq_spec, pyWords, ← joinWords_eq_collapse, pyWords]

/-- A `filterMap` over indices `s, s+1, ..., s+k-1` read through `getD` equals
the `filterMap` over the corresponding slice. -/
theorem filterMap_range_getD {α β : Type _} (d : α) (F : α → Option β) (l : List α) :
    ∀ (k s : Nat), s + k ≤ l.length →
      (List.range k).filterMap (fun j => F (l.getD (s + j) d)) =
        ((l.drop s).take k).filterMap F := by
  intro k
  induction k with
  | zero =>
    intro s h
    simp
  | succ k ih =>
    intro s h
    have hs : s < l.length := by omega
    rw [List.range_succ_eq_map, List.filterMap_cons, List.filterMap_map]
    have hfun : (fun j => F (l.getD (s + j) d)) ∘ Nat.succ =
        fun j => F (l.getD ((s + 1) + j) d) :=
      funext fun j => congrArg (fun n => F (l.getD n d)) (by omega)
    rw [hfun, ih (s + 1) (by omega), List.drop_eq_getElem_cons hs, List.take_succ_cons,
      List.filterMap_cons]
    rw [Nat.add_zero, List.getD_eq_getElem l d hs]

/-- The positional look-ahead loop of `_extract_outputs` harvests exactly the
slice of the 4 lines following line `i`. -/
theorem lookahead_eq_slice (lines : List (List Char)) (i : Nat) :
    lookahead lines i = lookaheadSliceSpec lines i := by
  unfold lookahead lookaheadSliceSpec
  rw [List.range'_eq_map_range, List.filterMap_map]
  have hfun : ((fun j =>
        let nl := strip (lines.getD (i + j) [])
        if nl.isEmpty then none else parseOutputLine nl) ∘ fun x => 1 + x) =
      fun j =>
        (fun s =>
          let nl := strip s
          if nl.isEmpty then none else parseOutputLine nl) (lines.getD ((i + 1) + j) []) := by
    funext j
    simp only [Function.comp_apply]
    have hadd : i + (1 + j) = i + 1 + j := by omega
    rw [hadd]
  rw [hfun]
  rcases Nat.lt_or_ge i lines.length with hi | hi
  · have hk : min 5 (lines.length - i) - 1 = min 4 (lines.length - i - 1) := by omega
    rw [hk, filterMap_range_getD []
      (fun s =>
        let nl := strip s
        if nl.isEmpty then none else parseOutputLine nl)
      lines (min 4 (lines.length - i - 1)) (i + 1) (by omega)]
    have htk : (lines.drop (i + 1)).take (min 4 (lines.length - i - 1)) =
        (lines.drop (i + 1)).take 4 := by
      rw [List.take_eq_take, List.length_drop]
      omega
    rw [htk]
  · have hk : min 5 (lines.length - i) - 1 = 0 := by omega
    have hd : lines.drop (i + 1) = [] := List.drop_eq_nil_of_le (by omega)
    rw [hk, hd]
    simp

/-- C7 counterexample: the look-ahead window is positional, so a blank line
after the keyword line consumes a slot; the 4th non-empty line after the
keyword line ("delta ash") is never parsed and appears in no output record,
contrary to the claim. -/
theorem claim_C7_counterexample :
    (outputCandidates outputKeywords
        "waste\n\nalpha ash\nbeta ash\ngamma ash\ndelta ash".data).map OutputStream.name =
      ["alpha ash".data, "beta ash".data, "gamma ash".data] ∧
    "delta ash".data ∉
      (outputCandidates outputKeywords
        "waste\n\nalpha ash\nbeta ash\ngamma ash\ndelta ash".data).map OutputStream.name ∧
    "delta ash".data ∉
      (extractOutputs outputKeywords
        "waste\n\nalpha ash\nbeta ash\ngamma ash\ndelta ash".data).map OutputStream.name :=
  ⟨by rfl, by decide, by decide⟩

/-- C7 amended: every line containing an output keyword is parsed, and each of
the following up to 4 lines — a positional window, in which blank lines do
count — is additionally parsed when its stripped content is non-empty. -/
theorem claim_C7_amended (kws : List (List Char)) (text : List Char) :
    outputCandidates kws text = outputScanSpec kws text := by
  unfold outputCandidates outputScanSpec
  simp only [lookahead_eq_slice]

/-- C10: when an input keyword triggers a region, the whole 10-line window is
harvested before the boundary check runs. Concretely: in the text
"inputs:\n- coal\nwaste outputs:\n- slag dust" line 0 triggers on "input",
line 2 is a boundary line (contains "waste"/"output", no input keyword), yet
the item "slag dust", bulleted on line 3 past that boundary inside the window,
still appears in the returned inputs. -/
theorem claim_C10_window_crosses_boundary :
    "slag dust".data ∈
      extractItems "inputs:\n- coal\nwaste outputs:\n- slag dust".data inputKeywords ∧
    "coal".data ∈
      extractItems "inputs:\n- coal\nwaste outputs:\n- slag dust".data inputKeywords ∧
    (extractItems "inputs:\n- coal\nwaste outputs:\n- slag dust".data inputKeywords).length = 2 ∧
    kwTrigger inputKeywords
      (strip ((splitLines "inputs:\n- coal\nwaste outputs:\n- slag dust".data).getD 0 [])) = true ∧
    kwIn boundaryWords
      (strip ((splitLines "inputs:\n- coal\nwaste outputs:\n- slag dust".data).getD 2 [])) = true ∧
    kwIn inputKeywords
      (strip ((splitLines "inputs:\n- coal\nwaste outputs:\n- slag dust".data).getD 2 [])) = false ∧
    bulletMatch
      (strip ((splitLines "inputs:\n- coal\nwaste outputs:\n- slag dust".data).getD 3 [])) =
      some "slag dust".data := by
  refine ⟨by decide, by decide, by rfl, by rfl, by rfl, by rfl, by rfl⟩

end DocumentParser
